/-
Verification of the dfmon filesystem-capacity tool (src/main.go) against its
specification.  The Go program is shallowly embedded: machine uint64
arithmetic is Nat taken modulo 2^64, the Statfs syscall is an oracle
parameter, and the set-once cancellation flag is the first loop index at
which the flag is observed set.  Go's sort.Slice (the pattern-defeating
quicksort of the Go standard library, src/sort/zsortfunc.go) is embedded in
full, operating on lists with explicit state passing; every mutation goes
through a single bounds-checked swap.  Go float64 values appear only in the
usagePercent field and the threshold comparisons; they are modelled by exact
rationals, and the theorems below rely on that model only where it agrees
with the program: integer-guard branches, comparisons of exactly
represented values, and bounds preserved by float64's monotone rounding.
The byte-humanization routine fmtBytes is deliberately not embedded: its
output hinges on bit-level float64 behavior of math.Log/math.Pow and of the
float64(b) conversion (e.g. Go prints 1.0 PiB at b = 1024^5 - 1 where the
exact floor-of-log rule would give 1024.0 TiB), which this exact-arithmetic
embedding cannot settle faithfully.
-/
import Mathlib

/-! ## Machine arithmetic: uint64 as Nat mod 2^64 -/

/-- The uint64 modulus. -/
def u64 : Nat := 2 ^ 64

/-- uint64 multiplication (wraps modulo 2^64), as in `s.Blocks * uint64(s.Bsize)`. -/
def u64mul (x y : Nat) : Nat := (x * y) % u64

/-- uint64 subtraction (wraps modulo 2^64), as in `used := total - free`.
Arguments are reduced first so the definition is total on Nat. -/
def u64sub (x y : Nat) : Nat := (x % u64 + u64 - y % u64) % u64

/-! ## Data model (src/main.go lines 18-53) -/

/-- One /proc/mounts line after `readMounts`: the Go code keeps the slice
`{p[0], p[1], p[2]}` = device, mount point, filesystem type. -/
structure MountEntry where
  device : String
  mountPoint : String
  fsType : String
deriving DecidableEq, Repr, Inhabited

/-- The `FS` struct of main.go.  `Total`, `Free`, `Used` are uint64
(Nat mod 2^64 here); `Usage` is float64, modelled as an exact rational. -/
structure FS where
  device : String
  mount : String
  type : String
  total : Nat
  free : Nat
  used : Nat
  usage : ℚ
deriving DecidableEq, Repr, Inhabited

/-- The `ColorScheme` struct of main.go. -/
structure ColorScheme where
  low : String
  medium : String
  high : String
  critical : String
  reset : String
deriving DecidableEq, Repr

/-- The global `Colors` value of main.go. -/
def Colors : ColorScheme :=
  { low := "\x1b[32m"
    medium := "\x1b[33m"
    high := "\x1b[31m"
    critical := "\x1b[31;1m"
    reset := "\x1b[0m" }

/-! ## Mount filter (src/main.go lines 115-132) -/

/-- The `shouldIncludeFS` of main.go: a mount is excluded iff some non-empty
entry of the exclusion list equals its filesystem type. -/
def shouldIncludeFS (fsType : String) (excludeTypes : List String) : Bool :=
  match excludeTypes with
  | [] => true
  | ex :: rest => if ex ≠ "" && fsType = ex then false else shouldIncludeFS fsType rest

/-- The `filterMounts` of main.go: keeps, in order, the mounts whose type passes
`shouldIncludeFS`. -/
def filterMounts (mounts : List MountEntry) (excludeTypes : List String) : List MountEntry :=
  match mounts with
  | [] => []
  | m :: rest =>
    if shouldIncludeFS m.fsType excludeTypes then m :: filterMounts rest excludeTypes
    else filterMounts rest excludeTypes

/-- Split a character list at every comma, as Go's `strings.Split(s, ",")`
does for the one-character separator: one (possibly empty) field per
separator-delimited segment, a single empty field for the empty string. -/
def splitCommaAux : List Char → List Char → List String
  | [], acc => [String.mk acc.reverse]
  | c :: rest, acc =>
    if c = ',' then String.mk acc.reverse :: splitCommaAux rest []
    else splitCommaAux rest (c :: acc)

/-- The `strings.Split(config.ExcludeTypes, ",")` from main (line 78). -/
def excludeList (s : String) : List String := splitCommaAux s.data []

/-! ## Usage analyzer (src/main.go lines 134-174) -/

/-- The result of one successful `syscall.Statfs` call: the three fields the
program reads.  `bsize` stands for the value of `uint64(s.Bsize)`. -/
structure StatfsT where
  blocks : Nat
  bsize : Nat
  bavail : Nat
deriving DecidableEq, Repr, Inhabited

/-- The `FS` value built in the loop body of `analyze` for mount `m` from a
successful statfs result `s` (src/main.go lines 155-171): uint64 products
and difference, and the divide-by-zero-guarded percentage.  The usage field
holds the exact rational value of `float64(used) / float64(total) * 100`;
the program rounds each conversion and operation, so theorems about usage
assert only what survives that rounding: the guard branch (a literal 0,
float-free) and lower bounds transported by the monotonicity of float64
conversion, division and multiplication. -/
def mkFS (m : MountEntry) (s : StatfsT) : FS :=
  let total := u64mul s.blocks s.bsize
  let free := u64mul s.bavail s.bsize
  let used := u64sub total free
  { device := m.device
    mount := m.mountPoint
    type := m.fsType
    total := total
    free := free
    used := used
    usage := if total > 0 then (used : ℚ) / (total : ℚ) * 100 else 0 }

/-- Whether the set-once cancellation flag is observed set when the loop
checks it before mount number `i` (0-based).  `cancelAt = some n` means the
signal listener set the flag between check `n-1` and check `n`; `none` means
it is never set during the scan. -/
def cancelled (cancelAt : Option Nat) (i : Nat) : Bool :=
  match cancelAt with
  | none => false
  | some n => decide (n ≤ i)

/-- The loop of `analyze` (src/main.go lines 137-172), with the running mount
index made explicit.  Each iteration first checks the cancellation flag and
returns the accumulated list if it is set; a failed statfs (`none` from the
oracle) logs a warning and `continue`s; a successful one appends `mkFS m s`.
The progress log every 10 mounts has no effect on the result and is not
modelled. -/
def analyzeGo (statfs : String → Option StatfsT) (cancelAt : Option Nat) :
    Nat → List MountEntry → List FS
  | _, [] => []
  | i, m :: rest =>
    if cancelled cancelAt i then []
    else
      match statfs m.mountPoint with
      | none => analyzeGo statfs cancelAt (i + 1) rest
      | some s => mkFS m s :: analyzeGo statfs cancelAt (i + 1) rest

/-- The `analyze` of main.go: run the loop from mount index 0. -/
def analyze (statfs : String → Option StatfsT) (cancelAt : Option Nat)
    (mounts : List MountEntry) : List FS :=
  analyzeGo statfs cancelAt 0 mounts

/-! ## Color selection (src/main.go lines 196-210) -/

/-- The `ColorScheme.ForUsage` of main.go: first-match-wins tiering with the
fixed 70 floor for the Medium tier.  float64 comparisons are exact on the
values involved, so ℚ models them faithfully. -/
def forUsage (c : ColorScheme) (usage warn crit : ℚ) (noColor : Bool) : String :=
  if noColor then ""
  else if usage ≥ crit then c.critical
  else if usage ≥ warn then c.high
  else if usage ≥ 70 then c.medium
  else c.low

/-! ## The sorter (src/main.go lines 212-225)

`sortFS` calls Go's `sort.Slice`, whose algorithm is the pattern-defeating
quicksort of the standard library (`src/sort/zsortfunc.go`, Go ≥ 1.19),
entered as `pdqsort_func(data, 0, length, bits.Len(uint(length)))`.  It is
embedded here in full with explicit state passing: the slice is a
`List FS`, every mutation goes through `swapE`, and every loop carries
explicit fuel (always called with enough fuel for the real control flow; a
fuel of zero returns the state unchanged). -/

/-- Read element `i`, defaulting out of bounds (Go would panic there; the
algorithm never reads out of bounds on real runs). -/
def getE (d : List FS) (i : Nat) : FS := d.getD i default

/-- The comparison closure passed to `sort.Slice` by `sortFS`
(src/main.go lines 213-224): the `switch by` dispatch on the sort key. -/
def sortLess (key : String) (d : List FS) (i j : Nat) : Bool :=
  match key with
  | "mount" => decide ((getE d i).mount < (getE d j).mount)
  | "usage" => decide ((getE d i).usage > (getE d j).usage)
  | "size" => decide ((getE d i).total > (getE d j).total)
  | _ => decide ((getE d i).mount < (getE d j).mount)

/-- The `data.Swap(i, j)`: exchange two elements; a no-op out of bounds. -/
def swapE (d : List FS) (i j : Nat) : List FS :=
  if h : i < d.length ∧ j < d.length then
    (d.set i (d.get ⟨j, h.2⟩)).set j (d.get ⟨i, h.1⟩)
  else d

/-- The `bits.Len` by halving with fuel (64 covers every uint64). -/
def bitsLenF : Nat → Nat → Nat
  | 0, _ => 0
  | fuel + 1, n => if n = 0 then 0 else bitsLenF fuel (n / 2) + 1

/-- The `bits.Len(uint(n))`: the number of bits of `n`. -/
def bitsLen (n : Nat) : Nat := bitsLenF 64 n

/-- The `nextPowerOfTwo` of sort.go. -/
def nextPowerOfTwo (length : Nat) : Nat := 1 <<< bitsLen length

/-- One step of sort.go's xorshift generator (shifts 13, 7, 17 on uint64). -/
def xorshiftNext (r : Nat) : Nat :=
  let r1 := (r ^^^ (r <<< 13)) % u64
  let r2 := r1 ^^^ (r1 >>> 7)
  (r2 ^^^ (r2 <<< 17)) % u64

/-- Inner loop of `insertionSort_func`: sift element `j` down while it is
less than its left neighbour and `j > a`. -/
def insInner (key : String) (a : Nat) : Nat → List FS → Nat → List FS
  | 0, d, _ => d
  | fuel + 1, d, j =>
    if decide (a < j) && sortLess key d j (j - 1) then
      insInner key a fuel (swapE d j (j - 1)) (j - 1)
    else d

/-- Outer loop of `insertionSort_func`: `for i := a + 1; i < b; i++`. -/
def insOuter (key : String) (a b : Nat) : Nat → List FS → Nat → List FS
  | 0, d, _ => d
  | fuel + 1, d, i =>
    if i < b then insOuter key a b fuel (insInner key a i d i) (i + 1)
    else d

/-- The `insertionSort_func(data, a, b)`. -/
def insertionSortGo (key : String) (d : List FS) (a b : Nat) : List FS :=
  insOuter key a b (b - a) d (a + 1)

/-- The `siftDown_func(data, root, hi, first)`: restore the max-heap property
below `root`. -/
def siftDownGo (key : String) (hi first : Nat) : Nat → List FS → Nat → List FS
  | 0, d, _ => d
  | fuel + 1, d, root =>
    let child := 2 * root + 1
    if child ≥ hi then d
    else
      let child :=
        if decide (child + 1 < hi) && sortLess key d (first + child) (first + child + 1) then
          child + 1
        else child
      if !sortLess key d (first + root) (first + child) then d
      else siftDownGo key hi first fuel (swapE d (first + root) (first + child)) child

/-- Heap-building loop of `heapSort_func`: `for i := (hi-1)/2; i >= 0; i--`,
the argument counting how many indices remain. -/
def heapBuild (key : String) (hi first : Nat) : Nat → List FS → List FS
  | 0, d => d
  | i + 1, d => heapBuild key hi first i (siftDownGo key hi first (hi + 1) d i)

/-- Pop loop of `heapSort_func`: `for i := hi-1; i >= 0; i--`. -/
def heapPop (key : String) (first : Nat) : Nat → List FS → List FS
  | 0, d => d
  | i + 1, d => heapPop key first i (siftDownGo key i first (i + 1) (swapE d first (first + i)) 0)

/-- The `heapSort_func(data, a, b)`. -/
def heapSortGo (key : String) (d : List FS) (a b : Nat) : List FS :=
  let hi := b - a
  heapPop key a hi (heapBuild key hi a ((hi - 1) / 2 + 1) d)

/-- The `breakPatterns_func(data, a, b)`: swap three middle elements with
pseudo-random others (xorshift seeded with the length — deterministic). -/
def breakPatternsGo (d : List FS) (a b : Nat) : List FS :=
  let length := b - a
  if length ≥ 8 then
    let modulus := nextPowerOfTwo length
    let idx := a + length / 4 * 2 - 1
    let r1 := xorshiftNext (length % u64)
    let o1 := (fun o => if o ≥ length then o - length else o) (r1 &&& (modulus - 1))
    let d1 := swapE d (idx - 1) (a + o1)
    let r2 := xorshiftNext r1
    let o2 := (fun o => if o ≥ length then o - length else o) (r2 &&& (modulus - 1))
    let d2 := swapE d1 idx (a + o2)
    let r3 := xorshiftNext r2
    let o3 := (fun o => if o ≥ length then o - length else o) (r3 &&& (modulus - 1))
    swapE d2 (idx + 1) (a + o3)
  else d

/-- The `reverseRange_func(data, a, b)` with `i = a`, `j = b-1`. -/
def reverseRangeGo : Nat → List FS → Nat → Nat → List FS
  | 0, d, _, _ => d
  | fuel + 1, d, i, j => if i < j then reverseRangeGo fuel (swapE d i j) (i + 1) (j - 1) else d

/-- The three pivot-sortedness hints of sort.go. -/
inductive SortedHint where
  | unknown
  | increasing
  | decreasing
deriving DecidableEq, Repr

/-- The `order2_func`: order two indices by the pointed-to elements, counting
comparisons that needed a swap of the indices. -/
def order2 (key : String) (d : List FS) (a b swaps : Nat) : Nat × Nat × Nat :=
  if sortLess key d b a then (b, a, swaps + 1) else (a, b, swaps)

/-- The `median_func`: index of the median of three elements. -/
def median (key : String) (d : List FS) (a b c swaps : Nat) : Nat × Nat :=
  match order2 key d a b swaps with
  | (a1, b1, s1) =>
    match order2 key d b1 c s1 with
    | (b2, _c2, s2) =>
      match order2 key d a1 b2 s2 with
      | (_a3, b3, s3) => (b3, s3)

/-- The `medianAdjacent_func`: median of `data[a-1]`, `data[a]`, `data[a+1]`. -/
def medianAdjacent (key : String) (d : List FS) (a swaps : Nat) : Nat × Nat :=
  median key d (a - 1) a (a + 1) swaps

/-- The `switch swaps` at the end of `choosePivot_func`
(`maxSwaps = 4 * 3 = 12`). -/
def pivotHint (j swaps : Nat) : Nat × SortedHint :=
  if swaps = 0 then (j, SortedHint.increasing)
  else if swaps = 12 then (j, SortedHint.decreasing)
  else (j, SortedHint.unknown)

/-- The `choosePivot_func(data, a, b)` (`shortestNinther = 50`). -/
def choosePivotGo (key : String) (d : List FS) (a b : Nat) : Nat × SortedHint :=
  let l := b - a
  let i0 := a + l / 4 * 1
  let j0 := a + l / 4 * 2
  let k0 := a + l / 4 * 3
  if l ≥ 8 then
    if l ≥ 50 then
      match medianAdjacent key d i0 0 with
      | (i1, s1) =>
        match medianAdjacent key d j0 s1 with
        | (j1, s2) =>
          match medianAdjacent key d k0 s2 with
          | (k1, s3) =>
            match median key d i1 j1 k1 s3 with
            | (j2, s4) => pivotHint j2 s4
    else
      match median key d i0 j0 k0 0 with
      | (j1, s1) => pivotHint j1 s1
  else (j0, SortedHint.increasing)

/-- First inner loop of `partialInsertionSort_func`: advance `i` past
already-ordered adjacent pairs. -/
def pisAdvance (key : String) (b : Nat) (d : List FS) : Nat → Nat → Nat
  | 0, i => i
  | fuel + 1, i =>
    if decide (i < b) && !sortLess key d i (i - 1) then pisAdvance key b d fuel (i + 1) else i

/-- Left-shifting loop of `partialInsertionSort_func`
(`for j := i - 1; j >= 1; j--`). -/
def pisShiftLeft (key : String) : Nat → List FS → Nat → List FS
  | 0, d, _ => d
  | fuel + 1, d, j =>
    if j ≥ 1 then
      if !sortLess key d j (j - 1) then d
      else pisShiftLeft key fuel (swapE d j (j - 1)) (j - 1)
    else d

/-- Right-shifting loop of `partialInsertionSort_func`
(`for j := i + 1; j < b; j++`). -/
def pisShiftRight (key : String) (b : Nat) : Nat → List FS → Nat → List FS
  | 0, d, _ => d
  | fuel + 1, d, j =>
    if j < b then
      if !sortLess key d j (j - 1) then d
      else pisShiftRight key b fuel (swapE d j (j - 1)) (j + 1)
    else d

/-- The `maxSteps = 5` loop of `partialInsertionSort_func`
(`shortestShifting = 50`); returns the state and whether the range became
fully sorted. -/
def pisSteps (key : String) (a b : Nat) : Nat → List FS → Nat → List FS × Bool
  | 0, d, _ => (d, false)
  | steps + 1, d, i =>
    let i := pisAdvance key b d (b + 1) i
    if i = b then (d, true)
    else if b - a < 50 then (d, false)
    else
      let d := swapE d i (i - 1)
      let d := if i - a ≥ 2 then pisShiftLeft key i d (i - 1) else d
      let d := if b - i ≥ 2 then pisShiftRight key b b d (i + 1) else d
      pisSteps key a b steps d i

/-- The `partialInsertionSort_func(data, a, b)`. -/
def partialInsertionSortGo (key : String) (d : List FS) (a b : Nat) : List FS × Bool :=
  pisSteps key a b 5 d (a + 1)

/-- The `for i <= j && data.Less(i, a) { i++ }` of `partition_func`. -/
def partAdvanceI (key : String) (a j : Nat) (d : List FS) : Nat → Nat → Nat
  | 0, i => i
  | fuel + 1, i =>
    if decide (i ≤ j) && sortLess key d i a then partAdvanceI key a j d fuel (i + 1) else i

/-- The `for i <= j && !data.Less(j, a) { j-- }` of `partition_func`. -/
def partRetreatJ (key : String) (a i : Nat) (d : List FS) : Nat → Nat → Nat
  | 0, j => j
  | fuel + 1, j =>
    if decide (i ≤ j) && !sortLess key d j a then partRetreatJ key a i d fuel (j - 1) else j

/-- The swapping loop of `partition_func`; returns the state and the final `j`. -/
def partLoop (key : String) (a b : Nat) : Nat → List FS → Nat → Nat → List FS × Nat
  | 0, d, _, j => (d, j)
  | fuel + 1, d, i, j =>
    let i := partAdvanceI key a j d (b + 1) i
    let j := partRetreatJ key a i d (b + 1) j
    if i > j then (d, j)
    else partLoop key a b fuel (swapE d i j) (i + 1) (j - 1)

/-- The `partition_func(data, a, b, pivot)`: returns the state, the new pivot
position and whether the range was already partitioned. -/
def partitionGo (key : String) (d : List FS) (a b pivot : Nat) : List FS × Nat × Bool :=
  let d := swapE d a pivot
  let i := partAdvanceI key a (b - 1) d (b + 1) (a + 1)
  let j := partRetreatJ key a i d (b + 1) (b - 1)
  if i > j then (swapE d j a, j, true)
  else
    match partLoop key a b (b + 1) (swapE d i j) (i + 1) (j - 1) with
    | (d, j) => (swapE d j a, j, false)

/-- The `for i <= j && !data.Less(a, i) { i++ }` of `partitionEqual_func`. -/
def peAdvanceI (key : String) (a j : Nat) (d : List FS) : Nat → Nat → Nat
  | 0, i => i
  | fuel + 1, i =>
    if decide (i ≤ j) && !sortLess key d a i then peAdvanceI key a j d fuel (i + 1) else i

/-- The `for i <= j && data.Less(a, j) { j-- }` of `partitionEqual_func`. -/
def peRetreatJ (key : String) (a i : Nat) (d : List FS) : Nat → Nat → Nat
  | 0, j => j
  | fuel + 1, j =>
    if decide (i ≤ j) && sortLess key d a j then peRetreatJ key a i d fuel (j - 1) else j

/-- The swapping loop of `partitionEqual_func`; returns the state and the
final `i`. -/
def peLoop (key : String) (a b : Nat) : Nat → List FS → Nat → Nat → List FS × Nat
  | 0, d, i, _ => (d, i)
  | fuel + 1, d, i, j =>
    let i := peAdvanceI key a j d (b + 1) i
    let j := peRetreatJ key a i d (b + 1) j
    if i > j then (d, i)
    else peLoop key a b fuel (swapE d i j) (i + 1) (j - 1)

/-- The `partitionEqual_func(data, a, b, pivot)`. -/
def partitionEqualGo (key : String) (d : List FS) (a b pivot : Nat) : List FS × Nat :=
  peLoop key a b (b + 1) (swapE d a pivot) (a + 1) (b - 1)

/-- The `pdqsort_func(data, a, b, limit)` (`maxInsertion = 12`): the main loop,
with the loop-carried `wasBalanced`/`wasPartitioned` flags explicit.  Each
recursive call (both the sub-range call and the continuation of the `for`
loop) strictly shrinks `b - a`, so fuel `length + 1` at the top level always
suffices. -/
def pdqsortGo (key : String) : Nat → List FS → Nat → Nat → Nat → Bool → Bool → List FS
  | 0, d, _, _, _, _, _ => d
  | fuel + 1, d, a, b, limit, wasBalanced, wasPartitioned =>
    let length := b - a
    if length ≤ 12 then insertionSortGo key d a b
    else if limit = 0 then heapSortGo key d a b
    else
      match (if !wasBalanced then (breakPatternsGo d a b, limit - 1) else (d, limit) :
          List FS × Nat) with
      | (d1, limit1) =>
        match choosePivotGo key d1 a b with
        | (pivot0, hint0) =>
          match (if hint0 = SortedHint.decreasing then
              (reverseRangeGo b d1 a (b - 1), (b - 1) - (pivot0 - a), SortedHint.increasing)
            else (d1, pivot0, hint0) : List FS × Nat × SortedHint) with
          | (d2, pivot, hint) =>
            match (if wasBalanced && wasPartitioned && decide (hint = SortedHint.increasing) then
                partialInsertionSortGo key d2 a b
              else (d2, false) : List FS × Bool) with
            | (d3, sortedDone) =>
              if sortedDone then d3
              else if decide (a > 0) && !sortLess key d3 (a - 1) pivot then
                match partitionEqualGo key d3 a b pivot with
                | (d4, mid) => pdqsortGo key fuel d4 mid b limit1 wasBalanced wasPartitioned
              else
                match partitionGo key d3 a b pivot with
                | (d4, mid, alreadyPartitioned) =>
                  let wasBalanced2 := decide (min (mid - a) (b - mid) ≥ length / 8)
                  if mid - a < b - mid then
                    pdqsortGo key fuel (pdqsortGo key fuel d4 a mid limit1 true true)
                      (mid + 1) b limit1 wasBalanced2 alreadyPartitioned
                  else
                    pdqsortGo key fuel (pdqsortGo key fuel d4 (mid + 1) b limit1 true true)
                      a mid limit1 wasBalanced2 alreadyPartitioned

/-- The `sortFS` of main.go (lines 212-225): `sort.Slice(list, less)`, which is
`pdqsort_func(data, 0, length, bits.Len(uint(length)))`. -/
def sortFS (list : List FS) (key : String) : List FS :=
  pdqsortGo key (list.length + 1) list 0 list.length (bitsLen list.length) true true

/-! ## Helper lemmas about the analyzer -/

/-- Specification-side description of the analyzer's output on a mount list:
the order-preserving image of the successfully-stated mounts. -/
def collectStats (statfs : String → Option StatfsT) (mounts : List MountEntry) : List FS :=
  mounts.filterMap (fun m => (statfs m.mountPoint).map (mkFS m))

theorem analyzeGo_none (statfs : String → Option StatfsT) :
    ∀ (mounts : List MountEntry) (i : Nat),
      analyzeGo statfs none i mounts = collectStats statfs mounts := by
  intro mounts
  induction mounts with
  | nil => intro i; rfl
  | cons m rest ih =>
    intro i
    rw [analyzeGo]
    cases h : statfs m.mountPoint <;>
      simp [cancelled, h, collectStats, List.filterMap_cons, ih (i + 1)]

theorem analyzeGo_some (statfs : String → Option StatfsT) :
    ∀ (mounts : List MountEntry) (i n : Nat), i ≤ n →
      analyzeGo statfs (some n) i mounts = collectStats statfs (mounts.take (n - i)) := by
  intro mounts
  induction mounts with
  | nil => intro i n _; simp [analyzeGo, collectStats]
  | cons m rest ih =>
    intro i n hin
    rw [analyzeGo]
    by_cases hc : n ≤ i
    · have hni : n - i = 0 := by omega
      simp [cancelled, hc, hni, collectStats]
    · have hni : n - i = (n - (i + 1)) + 1 := by omega
      rw [hni, List.take_succ_cons]
      cases h : statfs m.mountPoint <;>
        simp [cancelled, hc, h, collectStats, List.filterMap_cons, ih (i + 1) n (by omega)]

theorem length_collectStats (statfs : String → Option StatfsT) :
    ∀ mounts : List MountEntry, (∀ m ∈ mounts, (statfs m.mountPoint).isSome) →
      (collectStats statfs mounts).length = mounts.length := by
  intro mounts
  induction mounts with
  | nil => intro _; rfl
  | cons m rest ih =>
    intro h
    have hm : (statfs m.mountPoint).isSome := h m (by simp)
    obtain ⟨s, hs⟩ := Option.isSome_iff_exists.mp hm
    simp [collectStats, List.filterMap_cons, hs]
    have := ih (fun x hx => h x (by simp [hx]))
    simpa [collectStats] using this

theorem mem_analyzeGo (statfs : String → Option StatfsT) (cancelAt : Option Nat) :
    ∀ (mounts : List MountEntry) (i : Nat) (fs : FS),
      fs ∈ analyzeGo statfs cancelAt i mounts →
      ∃ m s, statfs m.mountPoint = some s ∧ fs = mkFS m s := by
  intro mounts
  induction mounts with
  | nil => intro i fs h; simp [analyzeGo] at h
  | cons m rest ih =>
    intro i fs h
    rw [analyzeGo] at h
    split at h
    · simp at h
    · cases hs : statfs m.mountPoint with
      | none =>
        rw [hs] at h
        exact ih (i + 1) fs h
      | some s =>
        rw [hs] at h
        rcases List.mem_cons.mp h with h1 | h2
        · exact ⟨m, s, hs, h1⟩
        · exact ih (i + 1) fs h2

/-! ## Claims about the analyzer -/

/-- C10: the FilesystemStat sequence returned by the Analyzer is exactly the
order-preserving image of the prefix of mounts processed before cancellation
(the whole list when cancellation never fires), restricted to the mounts
whose statistics query succeeded — no reordering, duplication or insertion. -/
theorem C10_analyzer_preserves_order :
    (∀ (statfs : String → Option StatfsT) (mounts : List MountEntry) (n : Nat),
      analyze statfs (some n) mounts = collectStats statfs (mounts.take n)) ∧
    (∀ (statfs : String → Option StatfsT) (mounts : List MountEntry),
      analyze statfs none mounts = collectStats statfs mounts) := by
  constructor
  · intro statfs mounts n
    simpa [analyze] using analyzeGo_some statfs mounts 0 n (Nat.zero_le n)
  · intro statfs mounts
    exact analyzeGo_none statfs mounts 0

/-- C3: when cancellation is requested after N of the M mounts have been
processed (and the first N statfs queries succeed), the Analyzer stops at its
next flag check and returns exactly the N stats accumulated so far; the
result is an ordinary list of stats, not an error. -/
theorem C3_cancellation_yields_prefix (statfs : String → Option StatfsT)
    (mounts : List MountEntry) (n : Nat) (hn : n ≤ mounts.length)
    (hok : ∀ m ∈ mounts.take n, (statfs m.mountPoint).isSome) :
    analyze statfs (some n) mounts = collectStats statfs (mounts.take n) ∧
    (analyze statfs (some n) mounts).length = n := by
  have he : analyze statfs (some n) mounts = collectStats statfs (mounts.take n) := by
    simpa [analyze] using analyzeGo_some statfs mounts 0 n (Nat.zero_le n)
  refine ⟨he, ?_⟩
  rw [he, length_collectStats statfs _ hok, List.length_take]
  omega

/-- C3 witness: cancelling after 1 of 2 mounts yields exactly the first
mount's stat. -/
theorem C3_cancellation_yields_prefix_witness :
    analyze (fun _ => some ⟨5, 4, 1⟩) (some 1)
        [⟨"dev1", "/", "ext4"⟩, ⟨"dev2", "/boot", "vfat"⟩] =
      collectStats (fun _ => some ⟨5, 4, 1⟩) ([⟨"dev1", "/", "ext4"⟩, ⟨"dev2", "/boot", "vfat"⟩].take 1) ∧
    (analyze (fun _ => some ⟨5, 4, 1⟩) (some 1)
        [⟨"dev1", "/", "ext4"⟩, ⟨"dev2", "/boot", "vfat"⟩]).length = 1 :=
  C3_cancellation_yields_prefix (fun _ => some ⟨5, 4, 1⟩)
    [⟨"dev1", "/", "ext4"⟩, ⟨"dev2", "/boot", "vfat"⟩] 1 (by simp)
    (fun m _ => rfl)

/-- C4: a mount whose statistics query fails contributes no FilesystemStat
and the scan continues with all remaining mounts: analyzing a list with a
failing mount spliced in gives exactly the analysis of the list without it. -/
theorem C4_stat_failure_skips_mount (statfs : String → Option StatfsT)
    (xs ys : List MountEntry) (bad : MountEntry)
    (hbad : statfs bad.mountPoint = none) :
    analyze statfs none (xs ++ bad :: ys) = analyze statfs none (xs ++ ys) ∧
    analyze statfs none (xs ++ bad :: ys) = collectStats statfs xs ++ collectStats statfs ys := by
  have h1 := analyzeGo_none statfs (xs ++ bad :: ys) 0
  have h2 := analyzeGo_none statfs (xs ++ ys) 0
  constructor <;>
    simp [analyze, h1, h2, collectStats, List.filterMap_append, List.filterMap_cons, hbad]

/-- C4 witness: a failing middle mount is skipped and both neighbours are
still analyzed. -/
theorem C4_stat_failure_skips_mount_witness :
    analyze (fun p => if p = "/bad" then none else some ⟨5, 4, 1⟩) none
        [⟨"dev1", "/", "ext4"⟩, ⟨"devB", "/bad", "nfs"⟩, ⟨"dev2", "/boot", "vfat"⟩] =
      analyze (fun p => if p = "/bad" then none else some ⟨5, 4, 1⟩) none
        [⟨"dev1", "/", "ext4"⟩, ⟨"dev2", "/boot", "vfat"⟩] ∧
    analyze (fun p => if p = "/bad" then none else some ⟨5, 4, 1⟩) none
        [⟨"dev1", "/", "ext4"⟩, ⟨"devB", "/bad", "nfs"⟩, ⟨"dev2", "/boot", "vfat"⟩] =
      collectStats (fun p => if p = "/bad" then none else some ⟨5, 4, 1⟩) [⟨"dev1", "/", "ext4"⟩] ++
      collectStats (fun p => if p = "/bad" then none else some ⟨5, 4, 1⟩) [⟨"dev2", "/boot", "vfat"⟩] :=
  C4_stat_failure_skips_mount (fun p => if p = "/bad" then none else some ⟨5, 4, 1⟩)
    [⟨"dev1", "/", "ext4"⟩] [⟨"dev2", "/boot", "vfat"⟩] ⟨"devB", "/bad", "nfs"⟩ rfl

/-- Every uint64 product is below the modulus. -/
theorem u64mul_lt (x y : Nat) : u64mul x y < u64 :=
  Nat.mod_lt _ (by norm_num [u64])

/-- C7: a mount whose statistics give totalBytes = 0 gets usagePercent = 0 —
the division is guarded, so the percentage is a plain number (never the
result of a division by zero). -/
theorem C7_zero_total_gives_zero_usage :
    (∀ (statfs : String → Option StatfsT) (cancelAt : Option Nat)
        (mounts : List MountEntry) (fs : FS),
      fs ∈ analyze statfs cancelAt mounts → fs.total = 0 → fs.usage = 0) ∧
    (∀ (m : MountEntry) (s : StatfsT),
      u64mul s.blocks s.bsize = 0 → (mkFS m s).usage = 0) := by
  have hmk : ∀ (m : MountEntry) (s : StatfsT),
      u64mul s.blocks s.bsize = 0 → (mkFS m s).usage = 0 := by
    intro m s h
    simp [mkFS, h]
  refine ⟨?_, hmk⟩
  intro statfs cancelAt mounts fs hmem htot
  obtain ⟨m, s, _, rfl⟩ := mem_analyzeGo statfs cancelAt mounts 0 fs hmem
  exact hmk m s (by simpa [mkFS] using htot)

/-- C7 witness: a zero-capacity mount (0 blocks) yields usage 0. -/
theorem C7_zero_total_gives_zero_usage_witness :
    (mkFS ⟨"none", "/proc", "proc"⟩ ⟨0, 4096, 0⟩).usage = 0 :=
  C7_zero_total_gives_zero_usage.2 ⟨"none", "/proc", "proc"⟩ ⟨0, 4096, 0⟩ rfl

/-- C9 counterexample: with blocks = 0, bsize = 1, bavail = 1 the query
reports availableBlocks × blockSize = 1 > 0 = blocks × blockSize, and
usedBytes does wrap to 2^64 - 1, but usagePercent is 0 (the divide-by-zero
guard fires), not a value exceeding 100 — refuting the claim as stated. -/
theorem C9_counterexample :
    u64mul (StatfsT.mk 0 1 1).bavail (StatfsT.mk 0 1 1).bsize >
      u64mul (StatfsT.mk 0 1 1).blocks (StatfsT.mk 0 1 1).bsize ∧
    (mkFS ⟨"dev", "/mnt", "ext4"⟩ (StatfsT.mk 0 1 1)).used = 2 ^ 64 - 1 ∧
    (mkFS ⟨"dev", "/mnt", "ext4"⟩ (StatfsT.mk 0 1 1)).usage = 0 ∧
    ¬ ((mkFS ⟨"dev", "/mnt", "ext4"⟩ (StatfsT.mk 0 1 1)).usage > 100) := by
  refine ⟨by decide, by decide, ?_, ?_⟩
  · norm_num [mkFS, u64mul, u64sub, u64]
  · norm_num [mkFS, u64mul, u64sub, u64]

/-- C9 amended: the unguarded uint64 subtraction wraps whenever the reported
free bytes exceed the total bytes, and — provided totalBytes > 0, so the
percentage guard does not fire — the resulting usagePercent is at least 100.
The last conjunct states the exact value of the quotient is at least 100
(here in fact strictly above); the program's float64 pipeline rounds, but
float64 conversion, division and multiplication are monotone and map the
all-equal case to exactly 100.0, so the program's usagePercent is also at
least 100 — and can be exactly 100.0 when rounding collapses the quotient
(e.g. blocks = 2^62 + 1, bsize = 1, bavail = 2^64 - 1), which is why the
bound is not strict. -/
theorem C9_amended_underflow_wraps (m : MountEntry) (s : StatfsT)
    (h : u64mul s.blocks s.bsize < u64mul s.bavail s.bsize)
    (hpos : 0 < u64mul s.blocks s.bsize) :
    (mkFS m s).used = u64mul s.blocks s.bsize + 2 ^ 64 - u64mul s.bavail s.bsize ∧
    (mkFS m s).total < (mkFS m s).used ∧
    (mkFS m s).usage ≥ 100 := by
  have hT := u64mul_lt s.blocks s.bsize
  have hF := u64mul_lt s.bavail s.bsize
  have hused : (mkFS m s).used =
      u64mul s.blocks s.bsize + 2 ^ 64 - u64mul s.bavail s.bsize := by
    show u64sub (u64mul s.blocks s.bsize) (u64mul s.bavail s.bsize) = _
    rw [u64sub, Nat.mod_eq_of_lt hT, Nat.mod_eq_of_lt hF,
      Nat.mod_eq_of_lt (by unfold u64 at hF ⊢; omega)]
    rfl
  have htot : (mkFS m s).total = u64mul s.blocks s.bsize := rfl
  have hlt : (mkFS m s).total < (mkFS m s).used := by
    rw [hused, htot]
    unfold u64 at hF
    omega
  refine ⟨hused, hlt, ?_⟩
  have husage : (mkFS m s).usage =
      ((mkFS m s).used : ℚ) / ((mkFS m s).total : ℚ) * 100 := by
    simp [mkFS, hpos]
  rw [husage]
  apply le_of_lt
  have hTpos : (0 : ℚ) < ((mkFS m s).total : ℚ) := by
    rw [htot]; exact_mod_cast hpos
  have hltq : ((mkFS m s).total : ℚ) < ((mkFS m s).used : ℚ) := by exact_mod_cast hlt
  have h1 : (1 : ℚ) < ((mkFS m s).used : ℚ) / ((mkFS m s).total : ℚ) :=
    (one_lt_div hTpos).mpr hltq
  calc (100 : ℚ) = 1 * 100 := by norm_num
  _ < ((mkFS m s).used : ℚ) / ((mkFS m s).total : ℚ) * 100 := by
      exact mul_lt_mul_of_pos_right h1 (by norm_num)

/-- C9 amended witness: blocks = 1, bsize = 1, bavail = 2 gives
used = 2^64 - 1 and usage at least (here far above) 100. -/
theorem C9_amended_underflow_wraps_witness :
    (mkFS ⟨"dev", "/mnt", "ext4"⟩ (StatfsT.mk 1 1 2)).used = 1 + 2 ^ 64 - 2 ∧
    (mkFS ⟨"dev", "/mnt", "ext4"⟩ (StatfsT.mk 1 1 2)).total <
      (mkFS ⟨"dev", "/mnt", "ext4"⟩ (StatfsT.mk 1 1 2)).used ∧
    (mkFS ⟨"dev", "/mnt", "ext4"⟩ (StatfsT.mk 1 1 2)).usage ≥ 100 := by
  have := C9_amended_underflow_wraps ⟨"dev", "/mnt", "ext4"⟩ (StatfsT.mk 1 1 2)
    (by decide) (by decide)
  simpa [u64mul, u64] using this

/-! ## Claims about the mount filter -/

theorem shouldIncludeFS_iff (ft : String) :
    ∀ ex : List String, shouldIncludeFS ft ex = true ↔ (ft ∉ ex ∨ ft = "") := by
  intro ex
  induction ex with
  | nil => simp [shouldIncludeFS]
  | cons e rest ih =>
    rw [shouldIncludeFS]
    by_cases hfe : ft = e
    · subst hfe
      by_cases he : ft = ""
      · subst he
        simp [ih]
      · simp [he, List.mem_cons]
    · by_cases he : e = "" <;> (simp [he, hfe, ih, List.mem_cons]; try tauto)

theorem filterMounts_eq_filter :
    ∀ (mounts : List MountEntry) (ex : List String),
      filterMounts mounts ex = mounts.filter (fun m => shouldIncludeFS m.fsType ex) := by
  intro mounts ex
  induction mounts with
  | nil => rfl
  | cons m rest ih =>
    rw [filterMounts, List.filter_cons]
    by_cases h : shouldIncludeFS m.fsType ex <;> simp [h, ih]

/-- C5: the Mount Filter returns exactly the subset of entries whose
filesystem type is not excluded, in input order; an empty-string entry in the
exclusion list never excludes anything (so the split of the empty exclusion
string excludes nothing), and excluding types proc and tmpfs from entries of
exactly those types leaves nothing. -/
theorem C5_filter_characterization :
    (∀ (mounts : List MountEntry) (ex : List String),
      filterMounts mounts ex =
        mounts.filter (fun m => decide (m.fsType ∉ ex ∨ m.fsType = ""))) ∧
    (∀ (mounts : List MountEntry) (ex : List String),
      (filterMounts mounts ex).Sublist mounts) ∧
    (excludeList "" = [""]) ∧
    (∀ mounts : List MountEntry, filterMounts mounts (excludeList "") = mounts) ∧
    (excludeList "proc,tmpfs" = ["proc", "tmpfs"]) ∧
    (filterMounts [⟨"proc", "/proc", "proc"⟩, ⟨"tmpfs", "/tmp", "tmpfs"⟩]
      (excludeList "proc,tmpfs") = []) := by
  have hchar : ∀ (mounts : List MountEntry) (ex : List String),
      filterMounts mounts ex =
        mounts.filter (fun m => decide (m.fsType ∉ ex ∨ m.fsType = "")) := by
    intro mounts ex
    rw [filterMounts_eq_filter]
    apply List.filter_congr
    intro m _
    rcases h : shouldIncludeFS m.fsType ex with hf | ht
    · have := (shouldIncludeFS_iff m.fsType ex)
      rw [h] at this
      simp only [Bool.false_eq_true, false_iff] at this
      simp [this]
    · have := (shouldIncludeFS_iff m.fsType ex).mp h
      simp [this]
  have hempty : excludeList "" = [""] := by decide
  refine ⟨hchar, ?_, hempty, ?_, by decide, by decide⟩
  · intro mounts ex
    rw [filterMounts_eq_filter]
    exact List.filter_sublist mounts
  · intro mounts
    rw [hempty, hchar]
    apply List.filter_eq_self.mpr
    intro m _
    rcases eq_or_ne m.fsType "" with h | h <;> simp [h]

/-! ## Claim about color tiering -/

/-- C6: the color tier is selected first-match-wins: usage at or above the
critical threshold is Critical; otherwise at or above the warning threshold
is High; otherwise at or above the fixed floor 70 (independent of the
configured thresholds) is Medium; otherwise Low.  With warn = 70, crit = 90:
usage 69 is Low and usage 92 is Critical; usage 75 is Medium whenever the
configured warning threshold lies above 75. -/
theorem C6_color_tiering :
    (∀ u warn crit : ℚ, u ≥ crit → forUsage Colors u warn crit false = Colors.critical) ∧
    (∀ u warn crit : ℚ, u < crit → u ≥ warn → forUsage Colors u warn crit false = Colors.high) ∧
    (∀ u warn crit : ℚ, u < crit → u < warn → u ≥ 70 →
      forUsage Colors u warn crit false = Colors.medium) ∧
    (∀ u warn crit : ℚ, u < crit → u < warn → u < 70 →
      forUsage Colors u warn crit false = Colors.low) ∧
    forUsage Colors 69 70 90 false = Colors.low ∧
    (∀ warn : ℚ, 75 < warn → forUsage Colors 75 warn 90 false = Colors.medium) ∧
    forUsage Colors 92 70 90 false = Colors.critical := by
  refine ⟨?_, ?_, ?_, ?_, ?_, ?_, ?_⟩
  · intro u warn crit h
    simp [forUsage, h]
  · intro u warn crit h1 h2
    simp [forUsage, h2, not_le.mpr h1]
  · intro u warn crit h1 h2 h3
    simp [forUsage, h3, not_le.mpr h1, not_le.mpr h2]
  · intro u warn crit h1 h2 h3
    simp [forUsage, not_le.mpr h1, not_le.mpr h2, not_le.mpr h3]
  · norm_num [forUsage]
  · intro warn hw
    have h90 : ¬ ((75 : ℚ) ≥ 90) := by norm_num
    have h70 : (75 : ℚ) ≥ 70 := by norm_num
    simp [forUsage, h90, not_le.mpr hw, h70]
  · norm_num [forUsage]

/-- C6 witness: the general tier clauses applied at concrete points
(92/70/90 Critical, 75/70/90 High, 75/80/90 Medium, 50/70/90 Low, and the
75-with-warn-80 Medium instance). -/
theorem C6_color_tiering_witness :
    forUsage Colors 92 70 90 false = Colors.critical ∧
    forUsage Colors 75 70 90 false = Colors.high ∧
    forUsage Colors 75 80 90 false = Colors.medium ∧
    forUsage Colors 50 70 90 false = Colors.low ∧
    forUsage Colors 75 80 90 false = Colors.medium :=
  ⟨C6_color_tiering.1 92 70 90 (by norm_num),
   C6_color_tiering.2.1 75 70 90 (by norm_num) (by norm_num),
   C6_color_tiering.2.2.1 75 80 90 (by norm_num) (by norm_num) (by norm_num),
   C6_color_tiering.2.2.2.1 50 70 90 (by norm_num) (by norm_num) (by norm_num),
   C6_color_tiering.2.2.2.2.2.1 80 (by norm_num)⟩

/-! ## The sorter only permutes elements: membership preservation -/

theorem mem_swapE (d : List FS) (i j : Nat) (x : FS) (h : x ∈ swapE d i j) : x ∈ d := by
  rw [swapE] at h
  split at h
  · rename_i hb
    rcases List.mem_or_eq_of_mem_set h with h1 | h1
    · rcases List.mem_or_eq_of_mem_set h1 with h2 | h2
      · exact h2
      · rw [h2]; exact List.get_mem d _ _
    · rw [h1]; exact List.get_mem d _ _
  · exact h

theorem mem_insInner (key : String) (a : Nat) :
    ∀ (fuel : Nat) (d : List FS) (j : Nat) (x : FS), x ∈ insInner key a fuel d j → x ∈ d := by
  intro fuel
  induction fuel with
  | zero => intro d j x h; simpa [insInner] using h
  | succ n ih =>
    intro d j x h
    rw [insInner] at h
    split at h
    · exact mem_swapE _ _ _ _ (ih _ _ _ h)
    · exact h

theorem mem_insOuter (key : String) (a b : Nat) :
    ∀ (fuel : Nat) (d : List FS) (i : Nat) (x : FS), x ∈ insOuter key a b fuel d i → x ∈ d := by
  intro fuel
  induction fuel with
  | zero => intro d i x h; simpa [insOuter] using h
  | succ n ih =>
    intro d i x h
    rw [insOuter] at h
    split at h
    · exact mem_insInner _ _ _ _ _ _ (ih _ _ _ h)
    · exact h

theorem mem_insertionSortGo (key : String) (d : List FS) (a b : Nat) (x : FS)
    (h : x ∈ insertionSortGo key d a b) : x ∈ d :=
  mem_insOuter key a b _ d _ x h

theorem mem_siftDownGo (key : String) (hi first : Nat) :
    ∀ (fuel : Nat) (d : List FS) (root : Nat) (x : FS),
      x ∈ siftDownGo key hi first fuel d root → x ∈ d := by
  intro fuel
  induction fuel with
  | zero => intro d root x h; simpa [siftDownGo] using h
  | succ n ih =>
    intro d root x h
    rw [siftDownGo] at h
    simp only [ge_iff_le] at h
    repeat' split at h
    all_goals first
      | exact h
      | exact mem_swapE _ _ _ _ (ih _ _ _ h)

theorem mem_heapBuild (key : String) (hi first : Nat) :
    ∀ (count : Nat) (d : List FS) (x : FS), x ∈ heapBuild key hi first count d → x ∈ d := by
  intro count
  induction count with
  | zero => intro d x h; simpa [heapBuild] using h
  | succ n ih =>
    intro d x h
    rw [heapBuild] at h
    exact mem_siftDownGo _ _ _ _ _ _ _ (ih _ _ h)

theorem mem_heapPop (key : String) (first : Nat) :
    ∀ (count : Nat) (d : List FS) (x : FS), x ∈ heapPop key first count d → x ∈ d := by
  intro count
  induction count with
  | zero => intro d x h; simpa [heapPop] using h
  | succ n ih =>
    intro d x h
    rw [heapPop] at h
    exact mem_swapE _ _ _ _ (mem_siftDownGo _ _ _ _ _ _ _ (ih _ _ h))

theorem mem_heapSortGo (key : String) (d : List FS) (a b : Nat) (x : FS)
    (h : x ∈ heapSortGo key d a b) : x ∈ d := by
  rw [heapSortGo] at h
  exact mem_heapBuild _ _ _ _ _ _ (mem_heapPop _ _ _ _ _ h)

theorem mem_breakPatternsGo (d : List FS) (a b : Nat) (x : FS)
    (h : x ∈ breakPatternsGo d a b) : x ∈ d := by
  rw [breakPatternsGo] at h
  split at h
  · exact mem_swapE _ _ _ _ (mem_swapE _ _ _ _ (mem_swapE _ _ _ _ h))
  · exact h

theorem mem_reverseRangeGo :
    ∀ (fuel : Nat) (d : List FS) (i j : Nat) (x : FS), x ∈ reverseRangeGo fuel d i j → x ∈ d := by
  intro fuel
  induction fuel with
  | zero => intro d i j x h; simpa [reverseRangeGo] using h
  | succ n ih =>
    intro d i j x h
    rw [reverseRangeGo] at h
    split at h
    · exact mem_swapE _ _ _ _ (ih _ _ _ _ h)
    · exact h

theorem mem_pisShiftLeft (key : String) :
    ∀ (fuel : Nat) (d : List FS) (j : Nat) (x : FS), x ∈ pisShiftLeft key fuel d j → x ∈ d := by
  intro fuel
  induction fuel with
  | zero => intro d j x h; simpa [pisShiftLeft] using h
  | succ n ih =>
    intro d j x h
    rw [pisShiftLeft] at h
    split at h
    · split at h
      · exact h
      · exact mem_swapE _ _ _ _ (ih _ _ _ h)
    · exact h

theorem mem_pisShiftRight (key : String) (b : Nat) :
    ∀ (fuel : Nat) (d : List FS) (j : Nat) (x : FS), x ∈ pisShiftRight key b fuel d j → x ∈ d := by
  intro fuel
  induction fuel with
  | zero => intro d j x h; simpa [pisShiftRight] using h
  | succ n ih =>
    intro d j x h
    rw [pisShiftRight] at h
    split at h
    · split at h
      · exact h
      · exact mem_swapE _ _ _ _ (ih _ _ _ h)
    · exact h

theorem mem_pisSteps (key : String) (a b : Nat) :
    ∀ (steps : Nat) (d : List FS) (i : Nat) (x : FS),
      x ∈ (pisSteps key a b steps d i).1 → x ∈ d := by
  intro steps
  induction steps with
  | zero => intro d i x h; simpa [pisSteps] using h
  | succ n ih =>
    intro d i x h
    rw [pisSteps] at h
    simp only [ge_iff_le] at h
    split at h
    · exact h
    · split at h
      · exact h
      · have h1 := ih _ _ _ h
        repeat' split at h1
        all_goals first
          | exact mem_swapE _ _ _ _ h1
          | exact mem_swapE _ _ _ _ (mem_pisShiftLeft _ _ _ _ _ h1)
          | exact mem_swapE _ _ _ _ (mem_pisShiftRight _ _ _ _ _ _ h1)
          | exact mem_swapE _ _ _ _
              (mem_pisShiftLeft _ _ _ _ _ (mem_pisShiftRight _ _ _ _ _ _ h1))

theorem mem_partialInsertionSortGo (key : String) (d : List FS) (a b : Nat) (x : FS)
    (h : x ∈ (partialInsertionSortGo key d a b).1) : x ∈ d :=
  mem_pisSteps key a b 5 d (a + 1) x h

theorem mem_partLoop (key : String) (a b : Nat) :
    ∀ (fuel : Nat) (d : List FS) (i j : Nat) (x : FS),
      x ∈ (partLoop key a b fuel d i j).1 → x ∈ d := by
  intro fuel
  induction fuel with
  | zero => intro d i j x h; simpa [partLoop] using h
  | succ n ih =>
    intro d i j x h
    rw [partLoop] at h
    split at h
    · exact h
    · exact mem_swapE _ _ _ _ (ih _ _ _ _ h)

theorem mem_partitionGo (key : String) (d : List FS) (a b pivot : Nat) (x : FS)
    (h : x ∈ (partitionGo key d a b pivot).1) : x ∈ d := by
  rw [partitionGo] at h
  split at h
  · exact mem_swapE _ _ _ _ (mem_swapE _ _ _ _ h)
  · rename_i hij
    split at h
    rename_i d4 j4 hpl
    have h1 : x ∈ (partLoop key a b (b + 1)
        (swapE (swapE d a pivot)
          (partAdvanceI key a (b - 1) (swapE d a pivot) (b + 1) (a + 1))
          (partRetreatJ key a
            (partAdvanceI key a (b - 1) (swapE d a pivot) (b + 1) (a + 1))
            (swapE d a pivot) (b + 1) (b - 1)))
        (partAdvanceI key a (b - 1) (swapE d a pivot) (b + 1) (a + 1) + 1)
        (partRetreatJ key a
          (partAdvanceI key a (b - 1) (swapE d a pivot) (b + 1) (a + 1))
          (swapE d a pivot) (b + 1) (b - 1) - 1)).1 := by
      rw [hpl]
      exact mem_swapE _ _ _ _ h
    exact mem_swapE _ _ _ _ (mem_swapE _ _ _ _ (mem_partLoop _ _ _ _ _ _ _ _ h1))

theorem mem_peLoop (key : String) (a b : Nat) :
    ∀ (fuel : Nat) (d : List FS) (i j : Nat) (x : FS),
      x ∈ (peLoop key a b fuel d i j).1 → x ∈ d := by
  intro fuel
  induction fuel with
  | zero => intro d i j x h; simpa [peLoop] using h
  | succ n ih =>
    intro d i j x h
    rw [peLoop] at h
    split at h
    · exact h
    · exact mem_swapE _ _ _ _ (ih _ _ _ _ h)

theorem mem_partitionEqualGo (key : String) (d : List FS) (a b pivot : Nat) (x : FS)
    (h : x ∈ (partitionEqualGo key d a b pivot).1) : x ∈ d := by
  rw [partitionEqualGo] at h
  exact mem_swapE _ _ _ _ (mem_peLoop _ _ _ _ _ _ _ _ h)

theorem mem_step1 {d : List FS} {a b limit : Nat} {wasB : Bool} {d1 : List FS} {limit1 : Nat}
    (heq : (if !wasB then (breakPatternsGo d a b, limit - 1) else (d, limit)) = (d1, limit1))
    {x : FS} (h : x ∈ d1) : x ∈ d := by
  split at heq
  · injection heq with e1 e2
    subst e1
    exact mem_breakPatternsGo _ _ _ _ h
  · injection heq with e1 e2
    subst e1
    exact h

theorem mem_step2 {b : Nat} {d1 : List FS} {a p0 : Nat} {h0 : SortedHint}
    {d2 : List FS} {pivot : Nat} {hint : SortedHint}
    (heq : (if h0 = SortedHint.decreasing then
        (reverseRangeGo b d1 a (b - 1), (b - 1) - (p0 - a), SortedHint.increasing)
      else (d1, p0, h0)) = (d2, pivot, hint))
    {x : FS} (h : x ∈ d2) : x ∈ d1 := by
  split at heq
  · injection heq with e1 e2
    subst e1
    exact mem_reverseRangeGo _ _ _ _ _ h
  · injection heq with e1 e2
    subst e1
    exact h

theorem mem_step3 {key : String} {d2 : List FS} {a b : Nat} {cond : Bool}
    {d3 : List FS} {sd : Bool}
    (heq : (if cond then partialInsertionSortGo key d2 a b else (d2, false)) = (d3, sd))
    {x : FS} (h : x ∈ d3) : x ∈ d2 := by
  split at heq
  · have e1 : d3 = (partialInsertionSortGo key d2 a b).1 := by rw [heq]
    exact mem_partialInsertionSortGo _ _ _ _ _ (e1 ▸ h)
  · injection heq with e1 e2
    subst e1
    exact h

theorem mem_pdqsortGo (key : String) :
    ∀ (fuel : Nat) (d : List FS) (a b limit : Nat) (wasB wasP : Bool) (x : FS),
      x ∈ pdqsortGo key fuel d a b limit wasB wasP → x ∈ d := by
  intro fuel
  induction fuel with
  | zero => intro d a b limit wasB wasP x h; simpa [pdqsortGo] using h
  | succ n ih =>
    intro d a b limit wasB wasP x h
    rw [pdqsortGo] at h
    split at h
    · exact mem_insertionSortGo _ _ _ _ _ h
    · split at h
      · exact mem_heapSortGo _ _ _ _ _ h
      · split at h
        rename_i d1 limit1 heq1
        split at h
        rename_i pivot0 hint0 heq2
        split at h
        rename_i d2 pivot hint heq3
        split at h
        rename_i d3 sortedDone heq4
        split at h
        · exact mem_step1 heq1 (mem_step2 heq3 (mem_step3 heq4 h))
        · split at h
          · split at h
            rename_i d4 mid heq5
            have h4 : x ∈ d4 := ih _ _ _ _ _ _ _ h
            have h3 : x ∈ (partitionEqualGo key d3 a b pivot).1 := by
              rw [heq5]; exact h4
            exact mem_step1 heq1 (mem_step2 heq3 (mem_step3 heq4
              (mem_partitionEqualGo _ _ _ _ _ _ h3)))
          · split at h
            rename_i d4 mid alreadyP heq5
            split at h
            · have h4 : x ∈ d4 := ih _ _ _ _ _ _ _ (ih _ _ _ _ _ _ _ h)
              have h3 : x ∈ (partitionGo key d3 a b pivot).1 := by
                rw [heq5]; exact h4
              exact mem_step1 heq1 (mem_step2 heq3 (mem_step3 heq4
                (mem_partitionGo _ _ _ _ _ _ h3)))
            · have h4 : x ∈ d4 := ih _ _ _ _ _ _ _ (ih _ _ _ _ _ _ _ h)
              have h3 : x ∈ (partitionGo key d3 a b pivot).1 := by
                rw [heq5]; exact h4
              exact mem_step1 heq1 (mem_step2 heq3 (mem_step3 heq4
                (mem_partitionGo _ _ _ _ _ _ h3)))

/-- The sorter only rearranges: every element of the sorted list is an
element of the input list, its fields untouched. -/
theorem mem_sortFS (l : List FS) (key : String) (x : FS) (h : x ∈ sortFS l key) : x ∈ l :=
  mem_pdqsortGo key _ l 0 l.length _ true true x h

/-! ## Claim C8: the collection-time invariant -/

/-- C8: every FilesystemStat produced by the Analyzer carries
totalBytes = blocks × blockSize, freeBytes = availableBlocks × blockSize
(available, not strictly free, blocks) and usedBytes = totalBytes − freeBytes
in uint64 arithmetic (the plain difference whenever freeBytes ≤ totalBytes);
the Sorter never modifies these fields — every output stat is an input stat. -/
theorem C8_collection_invariant :
    (∀ (statfs : String → Option StatfsT) (cancelAt : Option Nat)
        (mounts : List MountEntry) (fs : FS),
      fs ∈ analyze statfs cancelAt mounts →
      ∃ (m : MountEntry) (s : StatfsT), statfs m.mountPoint = some s ∧
        fs.total = u64mul s.blocks s.bsize ∧
        fs.free = u64mul s.bavail s.bsize ∧
        fs.used = u64sub fs.total fs.free) ∧
    (∀ x y : Nat, y ≤ x → x < u64 → u64sub x y = x - y) ∧
    (∀ (l : List FS) (key : String) (x : FS), x ∈ sortFS l key → x ∈ l) := by
  refine ⟨?_, ?_, mem_sortFS⟩
  · intro statfs cancelAt mounts fs hmem
    obtain ⟨m, s, hs, rfl⟩ := mem_analyzeGo statfs cancelAt mounts 0 fs hmem
    exact ⟨m, s, hs, rfl, rfl, rfl⟩
  · intro x y hyx hx
    rw [u64sub, Nat.mod_eq_of_lt hx, Nat.mod_eq_of_lt (lt_of_le_of_lt hyx hx)]
    have hsplit : x + u64 - y = (x - y) + u64 := by omega
    rw [hsplit, Nat.add_mod_right]
    exact Nat.mod_eq_of_lt (lt_of_le_of_lt (Nat.sub_le x y) hx)

/-- C8 witness: the invariant at a concrete mount (100 blocks of 1024 bytes,
10 available), the subtraction equation at 102400/10240, and sorter
membership on a singleton. -/
theorem C8_collection_invariant_witness :
    (∃ (m : MountEntry) (s : StatfsT),
      (fun (_ : String) => some (StatfsT.mk 100 1024 10)) m.mountPoint = some s ∧
      (mkFS (MountEntry.mk "d" "/" "ext4") (StatfsT.mk 100 1024 10)).total =
        u64mul s.blocks s.bsize ∧
      (mkFS (MountEntry.mk "d" "/" "ext4") (StatfsT.mk 100 1024 10)).free =
        u64mul s.bavail s.bsize ∧
      (mkFS (MountEntry.mk "d" "/" "ext4") (StatfsT.mk 100 1024 10)).used =
        u64sub (mkFS (MountEntry.mk "d" "/" "ext4") (StatfsT.mk 100 1024 10)).total
          (mkFS (MountEntry.mk "d" "/" "ext4") (StatfsT.mk 100 1024 10)).free) ∧
    u64sub 102400 10240 = 102400 - 10240 ∧
    FS.mk "d" "/" "ext4" 0 0 0 0 ∈ [FS.mk "d" "/" "ext4" 0 0 0 0] :=
  ⟨C8_collection_invariant.1 (fun _ => some (StatfsT.mk 100 1024 10)) none
      [MountEntry.mk "d" "/" "ext4"]
      (mkFS (MountEntry.mk "d" "/" "ext4") (StatfsT.mk 100 1024 10))
      (by simp [analyze, analyzeGo, cancelled]),
   C8_collection_invariant.2.1 102400 10240 (by norm_num) (by norm_num [u64]),
   C8_collection_invariant.2.2 [FS.mk "d" "/" "ext4" 0 0 0 0] "mount"
      (FS.mk "d" "/" "ext4" 0 0 0 0) (by decide)⟩

/-! ## Claim C1: stability of the sort -/

/-- A FilesystemStat that differs from its peers only in mount path and
usage, for exercising the sorter. -/
def statOf (mnt : String) (u : ℚ) : FS :=
  { device := "dev", mount := mnt, type := "ext4", total := 0, free := 0, used := 0, usage := u }

/-- Thirteen stats (just above sort.Slice's 12-element insertion-sort
cutoff, so the quicksort partitioning runs); the entries at positions 0 and
1 have equal usage 9. -/
def c1Input : List FS :=
  [statOf "m0" 9, statOf "m1" 9, statOf "m2" 1, statOf "m3" 5, statOf "m4" 1, statOf "m5" 1,
   statOf "m6" 7, statOf "m7" 1, statOf "m8" 1, statOf "m9" 6, statOf "m10" 1, statOf "m11" 1,
   statOf "m12" 1]

set_option maxRecDepth 1000000 in
/-- C1 (refuted): sortFS uses Go's sort.Slice, whose pattern-defeating
quicksort is not stable.  On this 13-entry input the two equal-usage entries
m0 (before) and m1 (after) come out in the order m1, m0 — and the equal-usage
run of 1s is permuted as well — so entries comparing equal under the usage
key do not retain their original relative order. -/
theorem C1_sort_slice_not_stable :
    c1Input.map FS.mount =
      ["m0", "m1", "m2", "m3", "m4", "m5", "m6", "m7", "m8", "m9", "m10", "m11", "m12"] ∧
    (getE c1Input 0).usage = (getE c1Input 1).usage ∧
    (sortFS c1Input "usage").map FS.mount =
      ["m1", "m0", "m6", "m9", "m3", "m4", "m5", "m7", "m8", "m2", "m10", "m11", "m12"] :=
  ⟨by decide, by decide, by decide⟩
